import Mathlib

set_option maxRecDepth 100000

/-!
Verification development for the tee-time aggregation engine
(`tee_times.py`): a shallow embedding of its pure data-processing
core — time and player-count normalization, the two extraction row
loops (Quick18 matrix and MiClub interactive calendar), deduplication
and sorting, the per-source failure isolation in `main`, and the
markdown report renderer — together with theorems about the embedded
definitions.

Modelling conventions:
* Python strings are Lean `String`s; character-level operations
  (lower-casing, substring search, trimming, splitting) are
  implemented over `String.data` so that they evaluate by kernel
  reduction.
* Machine integers are `Nat`/`Int`; Python `int` values that may be
  negative (such as `min_players`) are `Int`.
* Fallible code is `Option`/`Except`: a Python function that can
  raise becomes `Option`-valued (`none` = exception), and the
  extraction loops run in `Except String` because an exception inside
  the loop aborts the whole source's extraction.
* Network and DOM access (Playwright fetches, BeautifulSoup queries,
  the dateutil parser) is external input: each loop iteration's view
  of the page is a record of the values those calls returned, and the
  loop logic itself is embedded faithfully.
-/

/-! ## Character and string primitives -/

/-- Lexicographic comparison of character lists by code point, the
order Python uses for `str` comparison (`sorted` keys). -/
def charsLe : List Char → List Char → Bool
  | [], _ => true
  | _ :: _, [] => false
  | a :: as, b :: bs =>
    if a.toNat < b.toNat then true
    else if a.toNat = b.toNat then charsLe as bs
    else false

/-- Python `s1 <= s2` on strings. -/
def strLe (a b : String) : Bool :=
  charsLe a.data b.data

/-- Python `s.lower()` (ASCII fragment, which covers every string the
program lowers). -/
def pyLower (s : String) : String :=
  ⟨s.data.map Char.toLower⟩

/-- Does `needle` occur as a contiguous sublist of `hay`? -/
def charsContains (needle : List Char) : List Char → Bool
  | [] => needle.isEmpty
  | c :: cs => needle.isPrefixOf (c :: cs) || charsContains needle cs

/-- Python `needle in hay` on strings (substring containment; the
empty needle is always contained). -/
def containsSub (needle hay : String) : Bool :=
  charsContains needle.data hay.data

/-- Python `s.strip()` (whitespace at both ends removed). -/
def pyStrip (s : String) : String :=
  ⟨(((s.data.dropWhile Char.isWhitespace).reverse.dropWhile
      Char.isWhitespace).reverse)⟩

/-- Split a character list at every occurrence of the character `sep`
(Python `s.split(sep)` for a one-character separator, as in
`s.split(":")`). -/
def charsSplitOnChar (sep : Char) : List Char → List (List Char)
  | [] => [[]]
  | c :: cs =>
    let rest := charsSplitOnChar sep cs
    if c = sep then
      [] :: rest
    else
      match rest with
      | [] => [[c]]
      | r :: rs => (c :: r) :: rs

/-- Python `s.split(":")` on strings. -/
def pySplitColon (s : String) : List String :=
  (charsSplitOnChar ':' s.data).map (fun cs => ⟨cs⟩)

/-- Digit-run extraction: Python `re.findall(r"\d+", s)` with each
match converted by `int(...)` — the list of maximal decimal-digit
runs of `s`, as numbers.  `inRun` is the value of the run read so
far, `none` when the scanner is not inside a run. -/
def findallNumsAux : Option Nat → List Char → List Nat
  | none, [] => []
  | some n, [] => [n]
  | none, c :: cs =>
    if c.isDigit then findallNumsAux (some (c.toNat - '0'.toNat)) cs
    else findallNumsAux none cs
  | some n, c :: cs =>
    if c.isDigit then findallNumsAux (some (n * 10 + (c.toNat - '0'.toNat))) cs
    else n :: findallNumsAux none cs

/-- Python `[int(x) for x in re.findall(r"\d+", s)]`. -/
def pyFindallNums (s : String) : List Nat :=
  findallNumsAux none s.data

/-- Python `int(s)` on a string: surrounding whitespace is ignored, an
optional single sign precedes a nonempty digit run (the ASCII-decimal
fragment of `int`, which covers the `HH`/`MM` fields the program
parses).  `none` models `ValueError`. -/
def pyInt (s : String) : Option Int :=
  let t := (pyStrip s).data
  let core : List Char → Option Nat := fun ds =>
    if ds.isEmpty then none
    else if ds.all Char.isDigit then
      some (ds.foldl (fun n c => n * 10 + (c.toNat - '0'.toNat)) 0)
    else none
  match t with
  | '+' :: ds => (core ds).map (fun n => (n : Int))
  | '-' :: ds => (core ds).map (fun n => -(n : Int))
  | ds => (core ds).map (fun n => (n : Int))

/-! ## Data model -/

/-- Model of `TeeTime` (`tee_times.py` lines 20–26): the canonical slot
record.  An empty `tee_time` marks an error placeholder. -/
structure TeeTime where
  course : String
  play_date : String
  tee_time : String
  players_hint : Option String
  booking_url : String
deriving DecidableEq, Repr

/-! ## Time/player-count normalizer -/

/-- Model of `parse_hhmm_24` (lines 29–31): `hh, mm = s.strip().split(":")`
then `time(int(hh), int(mm))`.  `none` models the exceptions the
Python raises: a split that does not yield exactly two fields, an
unparseable field, or an out-of-range hour/minute (Python
`datetime.time` requires `0 <= h < 24` and `0 <= m < 60`). -/
def parse_hhmm_24 (s : String) : Option (Nat × Nat) :=
  match pySplitColon (pyStrip s) with
  | [hh, mm] =>
    match pyInt hh, pyInt mm with
    | some h, some m =>
      if 0 ≤ h ∧ h < 24 ∧ 0 ≤ m ∧ m < 60 then some (h.toNat, m.toNat)
      else none
    | _, _ => none
  | _ => none

/-- Python tuple comparison `(a1, a2) <= (b1, b2)` on pairs of
naturals (lexicographic). -/
def tupleLe (a b : Nat × Nat) : Bool :=
  decide (a.1 < b.1) || (decide (a.1 = b.1) && decide (a.2 ≤ b.2))

/-- Model of `is_before_or_equal` (lines 43–45): parse the candidate and
compare `(hour, minute)` tuples against `latest`.  `none` models the
`ValueError` that `parse_hhmm_24` would raise. -/
def is_before_or_equal (hhmm : String) (latest : Nat × Nat) : Option Bool :=
  (parse_hhmm_24 hhmm).map (fun t => tupleLe t latest)

/-- Model of `looks_like_players_ok` (lines 48–70): best-effort player-count
check.  A missing or empty hint (Python falsiness) and a hint without
digits are accepted; a hint containing `"to"` with at least two
numbers is checked against the second number; a hint containing
`"or"` with at least two numbers, and any other hint with digits, is
checked against the maximum number. -/
def looks_like_players_ok (players_hint : Option String) (min_players : Int) : Bool :=
  match players_hint with
  | none => true
  | some hint =>
    if hint = "" then true
    else
      let s := pyLower hint
      let nums := pyFindallNums s
      if nums.isEmpty then true
      else if containsSub "to" s && decide (2 ≤ nums.length) then
        decide (min_players ≤ (nums.getD 1 0 : Int))
      else if containsSub "or" s && decide (2 ≤ nums.length) then
        decide (min_players ≤ (nums.foldl max 0 : Int))
      else
        decide (min_players ≤ (nums.foldl max 0 : Int))

/-! ## Word-boundary regex fragments

The MiClub extractor uses three small regular expressions over row
and action text.  Their alternatives are fixed word lists, so each is
embedded as a scanner over the character list with explicit
word-boundary checks (`\b` in the source patterns). -/

/-- Python `\w` (ASCII fragment): letters, digits, underscore. -/
def isWordChar (c : Char) : Bool :=
  c.isAlphanum || c = '_'

/-- Case-insensitively consume the literal word `w` from the head of
`s`, returning the rest on success. -/
def consumeCI : List Char → List Char → Option (List Char)
  | [], s => some s
  | _, [] => none
  | w :: ws, c :: cs => if c.toLower = w then consumeCI ws cs else none

/-- Consume `sold\s*out` (one alternative of `bad_text_re`). -/
def consumeSoldOut (s : List Char) : Option (List Char) :=
  (consumeCI "sold".data s).bind
    (fun r => consumeCI "out".data (r.dropWhile Char.isWhitespace))

/-- Consume `n/?a` (one alternative of `bad_text_re`). -/
def consumeNA (s : List Char) : Option (List Char) :=
  (consumeCI "n".data s).bind
    (fun r =>
      match r with
      | '/' :: r2 => consumeCI "a".data r2
      | _ => consumeCI "a".data r)

/-- Consume one alternative of `bad_text_re` (line 436):
`booked|closed|unavailable|sold\s*out|full|n/?a`. -/
def consumeBadWord (s : List Char) : Option (List Char) :=
  (consumeCI "booked".data s).orElse (fun _ =>
  (consumeCI "closed".data s).orElse (fun _ =>
  (consumeCI "unavailable".data s).orElse (fun _ =>
  (consumeSoldOut s).orElse (fun _ =>
  (consumeCI "full".data s).orElse (fun _ =>
  consumeNA s)))))

/-- Consume one alternative of the action-text pattern (line 506):
`book|select|reserve`. -/
def consumeActionWord (s : List Char) : Option (List Char) :=
  (consumeCI "book".data s).orElse (fun _ =>
  (consumeCI "select".data s).orElse (fun _ =>
  consumeCI "reserve".data s))

/-- Boundary check `\b` before the match: the previous character (if any) is
not a word character.  (Every alternative starts with a letter.) -/
def boundaryBefore : Option Char → Bool
  | none => true
  | some p => !isWordChar p

/-- Boundary check `\b` after the match: the next character (if any) is not a
word character.  (Every alternative ends with a letter.) -/
def boundaryAfter : List Char → Bool
  | [] => true
  | c :: _ => !isWordChar c

/-- Model of `re.search` for a word-boundary-delimited alternation: scan every
position of `s`, trying `consume` there with boundary checks on both
sides.  `prev` is the character before the current position. -/
def wordAltSearch (consume : List Char → Option (List Char)) :
    Option Char → List Char → Bool
  | _, [] => false
  | prev, c :: cs =>
    (boundaryBefore prev &&
      (match consume (c :: cs) with
       | some rest => boundaryAfter rest
       | none => false))
    || wordAltSearch consume (some c) cs

/-- Model of `bad_text_re.search` (line 436):
`\b(booked|closed|unavailable|sold\s*out|full|n/?a)\b`, case
insensitive. -/
def pySearchBadText (s : String) : Bool :=
  wordAltSearch consumeBadWord none s.data

/-- Model of `bad_class_re.search` (line 435): plain substring alternation
`(disabled|unavailable|booked|closed|soldout|full|na)`, case
insensitive — no word boundaries. -/
def pySearchBadClass (s : String) : Bool :=
  ["disabled", "unavailable", "booked", "closed", "soldout", "full", "na"].any
    (fun w => containsSub w (pyLower s))

/-- Model of `re.search(r"\b(book|select|reserve)\b", a_text)` (line 506). -/
def pySearchActionWord (s : String) : Bool :=
  wordAltSearch consumeActionWord none s.data

/-- Python `s.startswith(p)`. -/
def pyStartsWith (p s : String) : Bool :=
  p.data.isPrefixOf s.data

/-! ## Sorting (Python `sorted`)

Python's `sorted` is a stable ascending sort; it is embedded as a
stable insertion sort parameterized by a boolean `le`, with each new
element placed after every already-placed element that is `le` it. -/

def insertLe {α : Type} (le : α → α → Bool) (x : α) : List α → List α
  | [] => [x]
  | y :: ys => if le y x then y :: insertLe le x ys else x :: y :: ys

/-- Stable ascending sort: Python `sorted(l, key=...)` with `le`
the comparison induced by the key. -/
def pySorted {α : Type} (le : α → α → Bool) (l : List α) : List α :=
  l.foldl (fun acc x => insertLe le x acc) []

/-- Comparison by the record's `tee_time` (the `key=lambda x:
x.tee_time` sorts at lines 299 and 529). -/
def byTeeTimeLe (a b : TeeTime) : Bool :=
  strLe a.tee_time b.tee_time

/-- Comparison by the `(course, tee_time)` tuple key (line 622). -/
def byCourseTimeLe (a b : TeeTime) : Bool :=
  if a.course = b.course then strLe a.tee_time b.tee_time
  else strLe a.course b.course

/-! ## Quick18 matrix extractor (lines 73–299)

Table selection, header-column resolution and the DOM/network reads
(lines 79–147 and the Playwright/BeautifulSoup calls) are external to
the embedding: each data row of the located table is given as a
`MatrixRow` holding the values those reads produced, and the row
loop (lines 152–293) plus deduplication and sort (lines 295–299) are
embedded directly. -/

/-- Result of the secondary slot-page fetch-and-analysis block (lines
186–269) when no exception occurs: the final values of
`slot_supports_min` and `slot_players_hint`. -/
structure SlotFetchResult where
  supports_min : Bool
  players_hint : Option String
deriving DecidableEq, Repr

instance {ε α : Type} [DecidableEq ε] [DecidableEq α] :
    DecidableEq (Except ε α) := fun a b =>
  match a, b with
  | .error x, .error y =>
    if h : x = y then isTrue (by rw [h])
    else isFalse (by intro hc; cases hc; exact h rfl)
  | .error _, .ok _ => isFalse (by intro hc; cases hc)
  | .ok _, .error _ => isFalse (by intro hc; cases hc)
  | .ok x, .ok y =>
    if h : x = y then isTrue (by rw [h])
    else isFalse (by intro hc; cases hc; exact h rfl)

/-- One data row of the matrix table, as the loop body observes it:
`tr_text` (line 153); the combined outcome of the time-pattern search
and `ampm_to_24h` conversion (lines 157–161, `none` when the pattern
is absent or dateutil fails); the `href` of the select link in the
18-holes cell (lines 165–173, `none` when the column is out of range
or the link/href is missing); and the outcome of the secondary
slot-page block (lines 186–273): an exception, or the computed
`SlotFetchResult`.  Exceptions in that block arise from the fetch and
parse at its start, before either variable is reassigned. -/
structure MatrixRow where
  tr_text : String
  hhmm? : Option String
  href? : Option String
  slotFetch : Except String SlotFetchResult
deriving DecidableEq, Repr

def base_url : String := "https://hamersley.quick18.com"

def hamersleyCourse : String := "Hamersley Public Golf Course"

/-- The `except` policy of lines 271–273: a failed secondary block
yields `slot_supports_min = True` with `slot_players_hint` still the
row-level hint; a completed block yields its computed pair. -/
def q18SlotStep (initHint : Option String) :
    Except String SlotFetchResult → Bool × Option String
  | .error _ => (true, initHint)
  | .ok r => (r.supports_min, r.players_hint)

/-- The hint cleanup of lines 278–283: keep `slot_players_hint` only
if it is truthy, mentions "player" (case-insensitively) and does not
contain "up to 20"; otherwise the emitted hint is `None`. -/
def q18FinalHint : Option String → Option String
  | none => none
  | some h =>
    if decide (h ≠ "") && containsSub "player" (pyLower h) &&
        !containsSub "up to 20" (pyLower h) then some h
    else none

/-- One iteration of the row loop (lines 152–293): `Except.ok none`
models `continue`, `Except.error` models an exception escaping the
loop (only `is_before_or_equal` can raise here), `Except.ok (some t)`
models `results.append(t)`. -/
def q18Row (play_date : String) (latest : Nat × Nat) (row : MatrixRow) :
    Except String (Option TeeTime) :=
  if !containsSub "select" (pyLower row.tr_text) then .ok none
  else
    match row.hhmm? with
    | none => .ok none
    | some hhmm =>
      if hhmm = "" then .ok none
      else
        match is_before_or_equal hhmm latest with
        | none => .error "ValueError"
        | some timeOk =>
          if !timeOk then .ok none
          else
            match row.href? with
            | none => .ok none
            | some href =>
              if href = "" then .ok none
              else
                let booking_url :=
                  if pyStartsWith "http" href then href else base_url ++ href
                let players_hint :=
                  if row.tr_text = "" then none else some row.tr_text
                let slot := q18SlotStep players_hint row.slotFetch
                if !slot.1 then .ok none
                else
                  .ok (some
                    { course := hamersleyCourse
                      play_date := play_date
                      tee_time := hhmm
                      players_hint := q18FinalHint slot.2
                      booking_url := booking_url })

/-- The row loop over all data rows, collecting appended records in
order; an exception in any iteration aborts the whole extraction. -/
def q18Rows (play_date : String) (latest : Nat × Nat) :
    List MatrixRow → Except String (List TeeTime)
  | [] => .ok []
  | r :: rs =>
    match q18Row play_date latest r with
    | .error e => .error e
    | .ok o =>
      match q18Rows play_date latest rs with
      | .error e => .error e
      | .ok rest =>
        .ok (match o with
             | some t => t :: rest
             | none => rest)

/-- The key of the de-duplication dict (line 298). -/
def slotKey (r : TeeTime) : String × String × String :=
  (r.course, r.play_date, r.tee_time)

/-- One dict write `uniq[key(r)] = r`: replace in place if the key is
present (keeping first-insertion position), else append. -/
def upsertByKey : List TeeTime → TeeTime → List TeeTime
  | [], r => [r]
  | x :: xs, r =>
    if slotKey x = slotKey r then r :: xs else x :: upsertByKey xs r

/-- Lines 296–298: insertion-ordered dict keyed by
`(course, play_date, tee_time)`, value = last write. -/
def dedupLastWins (rs : List TeeTime) : List TeeTime :=
  rs.foldl upsertByKey []

/-- Model of `scrape_quick18_hamersley` from the row loop on (lines 152–299):
process each row, then de-duplicate and sort ascending by
`tee_time`. -/
def scrape_quick18_rows (play_date : String) (latest : Nat × Nat)
    (rows : List MatrixRow) : Except String (List TeeTime) :=
  (q18Rows play_date latest rows).map
    (fun res => pySorted byTeeTimeLe (dedupLastWins res))

/-! ## MiClub interactive extractor (lines 302–529)

Navigation (click-through, tab switching, lines 352–389) and the DOM
reads are external: each `.time-wrapper` row of the resolved
timesheet is given as a `MiRow` holding the values the locator calls
returned, and the extraction loop (lines 439–513) plus result
building (lines 518–529) are embedded directly. -/

/-- One candidate action element of a row (the locator at line 482),
with the attribute and text values the loop body reads (lines
487–504).  `innerText?` is `none` when `inner_text()` raises (the
`except` at line 503 turns that into `""`). -/
structure ActionElem where
  cls : String
  ariaDisabled : String
  disabledAttr : Option String
  href : String
  onclick : String
  innerText? : Option String
deriving DecidableEq, Repr

/-- One `.time-wrapper` row: the `inner_text()` outcome of the
wrapper itself (line 446, `none` = exception, handled by `continue`);
the combined outcome of the AM/PM-or-24h time-pattern match and
`ampm_to_24h` conversion applied to that text (lines 451–456, `none`
when no pattern matches or dateutil fails); the row container's
`inner_text()` outcome (lines 471–474, `none` = exception, handled
by `row_text = ""`); the row container's class attribute (line 476,
with the `or ""` fallbacks applied); and the row's candidate action
elements. -/
structure MiRow where
  twText? : Option String
  hhmm? : Option String
  rowText? : Option String
  rowClass : String
  actions : List ActionElem
deriving DecidableEq, Repr

/-- The per-action test of lines 486–508: skip the action if its
class matches `bad_class_re`, `aria-disabled` is `"true"`, or a
`disabled` attribute is present; otherwise it is bookable when it has
a nonempty (stripped) `href` or `onclick`, or its text contains a
book/select/reserve word. -/
def actionBookable (a : ActionElem) : Bool :=
  if pySearchBadClass a.cls || decide (pyLower a.ariaDisabled = "true") ||
      a.disabledAttr.isSome then false
  else
    let href := pyStrip a.href
    let onclick := pyStrip a.onclick
    let a_text :=
      match a.innerText? with
      | some t => pyLower (pyStrip t)
      | none => ""
    decide (href ≠ "") || decide (onclick ≠ "") || pySearchActionWord a_text

/-- The row text the availability checks see (lines 471–474):
`inner_text().strip()`, or `""` when `inner_text()` raises. -/
def miRowText (row : MiRow) : String :=
  match row.rowText? with
  | some t => pyStrip t
  | none => ""

/-- One iteration of the row loop (lines 442–513): `Except.ok none`
models `continue`, `Except.error` models the `ValueError` of
`is_before_or_equal` escaping the loop, `Except.ok (some hhmm)`
models `found.append(hhmm)`.  At most the first 50 candidate actions
are examined (line 483). -/
def miRowFound (latest : Nat × Nat) (row : MiRow) :
    Except String (Option String) :=
  match row.twText? with
  | none => .ok none
  | some _ =>
    match row.hhmm? with
    | none => .ok none
    | some hhmm =>
      if hhmm = "" then .ok none
      else
        match is_before_or_equal hhmm latest with
        | none => .error "ValueError"
        | some timeOk =>
          if !timeOk then .ok none
          else
            if pySearchBadClass row.rowClass || pySearchBadText (miRowText row) then
              .ok none
            else if (row.actions.take 50).any actionBookable then
              .ok (some hhmm)
            else .ok none

/-- The row loop, collecting appended times in order. -/
def miRowsFound (latest : Nat × Nat) : List MiRow → Except String (List String)
  | [] => .ok []
  | r :: rs =>
    match miRowFound latest r with
    | .error e => .error e
    | .ok o =>
      match miRowsFound latest rs with
      | .error e => .error e
      | .ok rest =>
        .ok (match o with
             | some h => h :: rest
             | none => rest)

/-- The distinct elements of `l`, first occurrences kept in order
(`seen` accumulates the elements already emitted). -/
def dedupSeen (seen : List String) : List String → List String
  | [] => []
  | x :: xs =>
    if x ∈ seen then dedupSeen seen xs
    else x :: dedupSeen (x :: seen) xs

/-- Python `sorted(set(l))` on strings: the distinct elements in
ascending order (line 518). -/
def pySortedSet (l : List String) : List String :=
  pySorted strLe (dedupSeen [] l)

/-- Model of `scrape_miclub_public_calendar` from the extraction loop on
(lines 439–529): at most the first 400 `.time-wrapper` rows are
processed (line 440); the found times are de-duplicated, sorted, and
turned into records with no player hint and the final page address as
the booking link; the record list is then sorted by `tee_time`. -/
def scrape_miclub_rows (course_name final_url play_date : String)
    (latest : Nat × Nat) (rows : List MiRow) : Except String (List TeeTime) :=
  (miRowsFound latest (rows.take 400)).map
    (fun found =>
      let res := (pySortedSet found).map
        (fun hhmm =>
          { course := course_name
            play_date := play_date
            tee_time := hhmm
            players_hint := none
            booking_url := final_url : TeeTime })
      pySorted byTeeTimeLe res)

/-! ## Aggregator (`main`, lines 588–617) -/

/-- The placeholder record appended when a source's strategy raises
(lines 595–603 and 609–617): empty time, diagnostic hint
`"ERROR: " ++ e`, and the source's own address. -/
def mkPlaceholder (name url play_date e : String) : TeeTime :=
  { course := name
    play_date := play_date
    tee_time := ""
    players_hint := some ("ERROR: " ++ e)
    booking_url := url }

/-- The aggregation loop of `main`: each configured source
contributes its strategy's record list, or — when the strategy raises
`e` — exactly one placeholder; contributions are concatenated in
source order.  A source is `(name, url, outcome)` where `url` is the
address used for that source's placeholder and `outcome` is what its
strategy call produced. -/
def runSources (play_date : String) :
    List (String × String × Except String (List TeeTime)) → List TeeTime
  | [] => []
  | (name, url, outcome) :: rest =>
    (match outcome with
     | .ok rs => rs
     | .error e => [mkPlaceholder name url play_date e]) ++
    runSources play_date rest

/-! ## Report renderer (`render_markdown`, lines 531–561, and the
split/sort in `main`, lines 619–623) -/

/-- The fixed "nothing matched" notice (lines 533–539). -/
def nothingMatchedNotice (play_date : String) (min_players : Int)
    (latest_time : String) : String :=
  "# Tee time lookup\n\n- Date: **" ++ play_date ++
  "**\n- Filter: **" ++ toString min_players ++
  "+ players**, **before " ++ latest_time ++
  "**\n- Tip: right-click a link (or Ctrl/Cmd-click) to open it in a new tab.\n\n" ++
  "Nothing matched. Could be full, or one of the booking pages changed.\n"

/-- The header lines of a non-empty report (lines 541–548). -/
def renderHeaderLines (play_date : String) (min_players : Int)
    (latest_time : String) : List String :=
  ["# Tee time lookup",
   "",
   "- Date: **" ++ play_date ++ "**",
   "- Filter: **" ++ toString min_players ++ "+ players**, **before " ++
     latest_time ++ "**",
   "- Tip: right-click a link (or Ctrl/Cmd-click) to open it in a new tab.",
   ""]

/-- One dict write of the grouping loop (lines 550–552):
`by_course.setdefault(r.course, []).append(r)` on an
insertion-ordered association list. -/
def groupAppend (acc : List (String × List TeeTime)) (r : TeeTime) :
    List (String × List TeeTime) :=
  match acc with
  | [] => [(r.course, [r])]
  | (c, items) :: rest =>
    if c = r.course then (c, items ++ [r]) :: rest
    else (c, items) :: groupAppend rest r

/-- The grouping of lines 550–552. -/
def groupByCourse (rs : List TeeTime) : List (String × List TeeTime) :=
  rs.foldl groupAppend []

/-- One slot bullet (lines 557–558); the parenthetical hint is
emitted only when `players_hint` is truthy. -/
def slotLine (r : TeeTime) : String :=
  let hint :=
    match r.players_hint with
    | some h => if h = "" then "" else " (" ++ h ++ ")"
    | none => ""
  "- **" ++ r.tee_time ++ "**" ++ hint ++ "  [open booking page](" ++
    r.booking_url ++ ")"

/-- One course section (lines 554–559). -/
def courseSection (g : String × List TeeTime) : List String :=
  ("## " ++ g.1) :: "" :: (g.2.map slotLine ++ [""])

/-- Python `"\n".join(lines)`. -/
def joinLines : List String → String
  | [] => ""
  | [l] => l
  | l :: ls => l ++ "\n" ++ joinLines ls

/-- The non-empty branch of `render_markdown` (lines 541–561). -/
def renderSections (all_results : List TeeTime) (play_date : String)
    (min_players : Int) (latest_time : String) : String :=
  joinLines (renderHeaderLines play_date min_players latest_time ++
    ((groupByCourse all_results).map courseSection).flatten)

/-- Model of `render_markdown` (lines 531–561): the fixed notice when the
record list is empty, otherwise the grouped sections. -/
def render_markdown (all_results : List TeeTime) (play_date : String)
    (min_players : Int) (latest_time : String) : String :=
  if all_results.isEmpty then
    nothingMatchedNotice play_date min_players latest_time
  else renderSections all_results play_date min_players latest_time

/-- Lines 619–623 of `main`: split the merged list into real records
and placeholders, sort the real ones by `(course, tee_time)`, and
render real records first, placeholders after. -/
def mainReport (all_results : List TeeTime) (play_date : String)
    (min_players : Int) (latest_time : String) : String :=
  let good := all_results.filter (fun r => decide (r.tee_time ≠ ""))
  let bad := all_results.filter (fun r => decide (r.tee_time = ""))
  let good_sorted := pySorted byCourseTimeLe good
  render_markdown (good_sorted ++ bad) play_date min_players latest_time

/-! ## Order and sorting lemmas -/

theorem charsLe_total : ∀ a b : List Char, charsLe a b = true ∨ charsLe b a = true := by
  intro a
  induction a with
  | nil => intro b; left; simp [charsLe]
  | cons x xs ih =>
    intro b
    cases b with
    | nil => right; simp [charsLe]
    | cons y ys =>
      by_cases hlt : x.toNat < y.toNat
      · left; simp [charsLe, hlt]
      · by_cases heq : x.toNat = y.toNat
        · rcases ih ys with h | h
          · left; simp [charsLe, hlt, heq, h]
          · right; simp [charsLe, heq.symm, h]
        · right
          have : y.toNat < x.toNat := by omega
          simp [charsLe, this]

theorem charsLe_trans :
    ∀ a b c : List Char, charsLe a b = true → charsLe b c = true → charsLe a c = true := by
  intro a
  induction a with
  | nil => intro b c _ _; simp [charsLe]
  | cons x xs ih =>
    intro b c hab hbc
    cases b with
    | nil => simp [charsLe] at hab
    | cons y ys =>
      cases c with
      | nil => simp [charsLe] at hbc
      | cons z zs =>
        simp only [charsLe] at hab hbc ⊢
        split at hab
        · -- x < y
          rename_i hxy
          split at hbc
          · rename_i hyz; simp [show x.toNat < z.toNat by omega]
          · split at hbc
            · rename_i _ hyz; simp [show x.toNat < z.toNat by omega]
            · exact absurd hbc (by simp)
        · split at hab
          · -- x = y
            rename_i hxy hxy2
            split at hbc
            · rename_i hyz; simp [show x.toNat < z.toNat by omega]
            · split at hbc
              · rename_i _ hyz
                simp [show ¬ x.toNat < z.toNat by omega, show x.toNat = z.toNat by omega]
                exact ih ys zs hab hbc
              · exact absurd hbc (by simp)
          · exact absurd hab (by simp)

theorem strLe_total (a b : String) : strLe a b = true ∨ strLe b a = true :=
  charsLe_total a.data b.data

theorem strLe_trans {a b c : String} (h1 : strLe a b = true) (h2 : strLe b c = true) :
    strLe a c = true :=
  charsLe_trans a.data b.data c.data h1 h2

theorem byTeeTimeLe_total (a b : TeeTime) : byTeeTimeLe a b = true ∨ byTeeTimeLe b a = true :=
  strLe_total a.tee_time b.tee_time

theorem byTeeTimeLe_trans (a b c : TeeTime) (h1 : byTeeTimeLe a b = true)
    (h2 : byTeeTimeLe b c = true) : byTeeTimeLe a c = true :=
  strLe_trans h1 h2

theorem mem_insertLe {α : Type} (le : α → α → Bool) (x : α) :
    ∀ (l : List α) (a : α), a ∈ insertLe le x l ↔ a = x ∨ a ∈ l := by
  intro l
  induction l with
  | nil => intro a; simp [insertLe]
  | cons y ys ih =>
    intro a
    simp only [insertLe]
    split
    · simp [ih a]; tauto
    · simp

theorem insertLe_perm {α : Type} (le : α → α → Bool) (x : α) :
    ∀ l : List α, (insertLe le x l).Perm (x :: l) := by
  intro l
  induction l with
  | nil => simp [insertLe]
  | cons y ys ih =>
    simp only [insertLe]
    split
    · exact ((ih.cons y).trans (List.Perm.swap x y ys))
    · exact List.Perm.refl _

theorem pySorted_perm_aux {α : Type} (le : α → α → Bool) :
    ∀ (l acc : List α), (l.foldl (fun acc x => insertLe le x acc) acc).Perm (acc ++ l) := by
  intro l
  induction l with
  | nil => intro acc; simp
  | cons x xs ih =>
    intro acc
    have h1 : (insertLe le x acc).Perm (x :: acc) := insertLe_perm le x acc
    have h2 := ih (insertLe le x acc)
    have h3 : ((insertLe le x acc) ++ xs).Perm ((x :: acc) ++ xs) := h1.append_right xs
    have h4 : ((x :: acc) ++ xs).Perm (acc ++ x :: xs) := by
      simpa using
        (List.perm_middle :
          List.Perm (acc ++ x :: xs) (x :: (acc ++ xs))).symm
    simpa using (h2.trans (h3.trans h4))

theorem pySorted_perm {α : Type} (le : α → α → Bool) (l : List α) :
    (pySorted le l).Perm l := by
  simpa [pySorted] using pySorted_perm_aux le l []

theorem mem_pySorted {α : Type} (le : α → α → Bool) (l : List α) (a : α) :
    a ∈ pySorted le l ↔ a ∈ l :=
  (pySorted_perm le l).mem_iff

theorem pairwise_insertLe {α : Type} (le : α → α → Bool)
    (htrans : ∀ a b c, le a b = true → le b c = true → le a c = true)
    (htot : ∀ a b, le a b = true ∨ le b a = true) (x : α) :
    ∀ l : List α, l.Pairwise (fun a b => le a b = true) →
      (insertLe le x l).Pairwise (fun a b => le a b = true) := by
  intro l
  induction l with
  | nil => intro _; simp [insertLe]
  | cons y ys ih =>
    intro h
    rcases List.pairwise_cons.mp h with ⟨hy, hys⟩
    simp only [insertLe]
    split
    · rename_i hyx
      refine List.pairwise_cons.mpr ⟨?_, ih hys⟩
      intro a ha
      rcases (mem_insertLe le x ys a).mp ha with rfl | ha
      · exact hyx
      · exact hy a ha
    · rename_i hyx
      have hxy : le x y = true := by
        rcases htot x y with h | h
        · exact h
        · exact absurd h hyx
      refine List.pairwise_cons.mpr ⟨?_, h⟩
      intro a ha
      rcases List.mem_cons.mp ha with rfl | ha
      · exact hxy
      · exact htrans x y a hxy (hy a ha)

theorem pySorted_pairwise {α : Type} (le : α → α → Bool)
    (htrans : ∀ a b c, le a b = true → le b c = true → le a c = true)
    (htot : ∀ a b, le a b = true ∨ le b a = true) :
    ∀ (l acc : List α), acc.Pairwise (fun a b => le a b = true) →
      (l.foldl (fun acc x => insertLe le x acc) acc).Pairwise (fun a b => le a b = true) := by
  intro l
  induction l with
  | nil => intro acc h; simpa using h
  | cons x xs ih =>
    intro acc h
    simpa using ih (insertLe le x acc) (pairwise_insertLe le htrans htot x acc h)

theorem pySorted_sorted {α : Type} (le : α → α → Bool)
    (htrans : ∀ a b c, le a b = true → le b c = true → le a c = true)
    (htot : ∀ a b, le a b = true ∨ le b a = true) (l : List α) :
    (pySorted le l).Pairwise (fun a b => le a b = true) :=
  pySorted_pairwise le htrans htot l [] (by simp)

/-! ## Deduplication lemmas -/

theorem filter_upsertByKey (k : String × String × String) :
    ∀ (acc : List TeeTime) (x : TeeTime),
      ((acc.filter (fun r => decide (slotKey r = k))).length ≤ 1) →
      (upsertByKey acc x).filter (fun r => decide (slotKey r = k)) =
        if slotKey x = k then [x]
        else acc.filter (fun r => decide (slotKey r = k)) := by
  intro acc
  induction acc with
  | nil =>
    intro x _
    by_cases h : slotKey x = k <;> simp [upsertByKey, h]
  | cons y ys ih =>
    intro x hlen
    by_cases hyk : slotKey y = k
    · have hfil : (y :: ys).filter (fun r => decide (slotKey r = k)) =
          y :: ys.filter (fun r => decide (slotKey r = k)) := by simp [hyk]
      have hys : ys.filter (fun r => decide (slotKey r = k)) = [] := by
        rw [hfil] at hlen
        simp only [List.length_cons] at hlen
        exact List.length_eq_zero.mp (by omega)
      by_cases hyx : slotKey y = slotKey x
      · have hxk : slotKey x = k := hyx.symm.trans hyk
        simp [upsertByKey, hyx, hxk, hys]
      · have hxk : ¬ slotKey x = k := fun h => hyx (hyk.trans h.symm)
        have hkx : ¬ k = slotKey x := fun h => hxk h.symm
        have ihy := ih x (by rw [hys]; simp)
        simp [upsertByKey, hyx, hyk, hkx, hxk, ihy, hys]
    · have hfil : (y :: ys).filter (fun r => decide (slotKey r = k)) =
          ys.filter (fun r => decide (slotKey r = k)) := by simp [hyk]
      have hlen' : (ys.filter (fun r => decide (slotKey r = k))).length ≤ 1 := by
        rw [hfil] at hlen; exact hlen
      have ihy := ih x hlen'
      by_cases hyx : slotKey y = slotKey x
      · have hxk : ¬ slotKey x = k := fun h => hyk (hyx.trans h)
        simp [upsertByKey, hyx, hxk, hyk]
      · simp [upsertByKey, hyx, hyk, ihy]

theorem foldl_upsert_filter (k : String × String × String) :
    ∀ (l acc : List TeeTime),
      ((acc.filter (fun r => decide (slotKey r = k))).length ≤ 1) →
      (l.foldl upsertByKey acc).filter (fun r => decide (slotKey r = k)) =
        (match (l.filter (fun r => decide (slotKey r = k))).getLast? with
         | some r => [r]
         | none => acc.filter (fun r => decide (slotKey r = k))) := by
  intro l
  induction l with
  | nil => intro acc h; simp
  | cons x xs ih =>
    intro acc hlen
    have hx := filter_upsertByKey k acc x hlen
    have hlen' : ((upsertByKey acc x).filter (fun r => decide (slotKey r = k))).length ≤ 1 := by
      rw [hx]
      split
      · simp
      · exact hlen
    have ihx := ih (upsertByKey acc x) hlen'
    simp only [List.foldl_cons]
    rw [ihx]
    by_cases hxk : slotKey x = k
    · have hfil : (x :: xs).filter (fun r => decide (slotKey r = k)) =
          x :: xs.filter (fun r => decide (slotKey r = k)) := by simp [hxk]
      rw [hfil]
      cases hxs : xs.filter (fun r => decide (slotKey r = k)) with
      | nil => simp [hx, hxk]
      | cons a t =>
        rcases h2 : (a :: t).getLast? with _ | r
        · simp at h2
        · simp [List.getLast?_cons_cons, h2]
    · have hfil : (x :: xs).filter (fun r => decide (slotKey r = k)) =
          xs.filter (fun r => decide (slotKey r = k)) := by simp [hxk]
      rw [hfil, hx, if_neg hxk]

theorem dedupLastWins_filter (l : List TeeTime) (k : String × String × String) :
    (dedupLastWins l).filter (fun r => decide (slotKey r = k)) =
      ((l.filter (fun r => decide (slotKey r = k))).getLast?).toList := by
  have h := foldl_upsert_filter k l [] (by simp)
  unfold dedupLastWins
  rw [h]
  cases (l.filter (fun r => decide (slotKey r = k))).getLast? <;> simp

theorem mem_upsertByKey (x a : TeeTime) :
    ∀ l : List TeeTime, a ∈ upsertByKey l x → a ∈ l ∨ a = x := by
  intro l
  induction l with
  | nil => intro h; simp [upsertByKey] at h; right; exact h
  | cons y ys ih =>
    intro h
    simp only [upsertByKey] at h
    split at h
    · rcases List.mem_cons.mp h with rfl | h
      · right; rfl
      · left; exact List.mem_cons_of_mem _ h
    · rcases List.mem_cons.mp h with rfl | h
      · left; exact List.mem_cons_self _ _
      · rcases ih h with h | h
        · left; exact List.mem_cons_of_mem _ h
        · right; exact h

theorem mem_foldl_upsert (a : TeeTime) :
    ∀ (l acc : List TeeTime), a ∈ l.foldl upsertByKey acc → a ∈ acc ∨ a ∈ l := by
  intro l
  induction l with
  | nil => intro acc h; left; simpa using h
  | cons x xs ih =>
    intro acc h
    simp only [List.foldl_cons] at h
    rcases ih (upsertByKey acc x) h with h | h
    · rcases mem_upsertByKey x a acc h with h | rfl
      · left; exact h
      · right; exact List.mem_cons_self _ _
    · right; exact List.mem_cons_of_mem _ h

theorem mem_dedupLastWins {a : TeeTime} {l : List TeeTime} :
    a ∈ dedupLastWins l → a ∈ l := by
  intro h
  rcases mem_foldl_upsert a l [] h with h | h
  · simp at h
  · exact h

/-! ## Row-level inversion lemmas -/

theorem q18Row_ok_some_inv {pd : String} {latest : Nat × Nat} {row : MatrixRow}
    {t : TeeTime} (h : q18Row pd latest row = Except.ok (some t)) :
    is_before_or_equal t.tee_time latest = some true ∧
    (∃ o, t.players_hint = q18FinalHint o) ∧
    t.course = hamersleyCourse ∧ t.play_date = pd := by
  unfold q18Row at h
  dsimp only at h
  split at h
  · simp at h
  · split at h
    · simp at h
    · rename_i hhmm _
      split at h
      · simp at h
      · split at h
        · simp at h
        · rename_i timeOk heq
          split at h
          · simp at h
          · rename_i htime
            split at h
            · simp at h
            · split at h
              · simp at h
              · split at h <;> split at h <;>
                  first
                    | exact Option.noConfusion (Except.ok.inj h)
                    | (split at h <;>
                        (simp only [Except.ok.injEq, Option.some.injEq] at h
                         subst h
                         refine ⟨?_, ⟨_, rfl⟩, rfl, rfl⟩
                         rw [heq]
                         have hT : timeOk = true := by
                           by_contra hc
                           simp [Bool.not_eq_true] at hc
                           subst hc
                           simp at htime
                         rw [hT]))

theorem miRowFound_ok_some_inv {latest : Nat × Nat} {row : MiRow} {hh : String}
    (h : miRowFound latest row = Except.ok (some hh)) :
    is_before_or_equal hh latest = some true ∧
    pySearchBadClass row.rowClass = false ∧
    pySearchBadText (miRowText row) = false ∧
    (row.actions.take 50).any actionBookable = true := by
  unfold miRowFound at h
  split at h
  · simp at h
  · split at h
    · simp at h
    · rename_i hhmm _
      split at h
      · simp at h
      · split at h
        · simp at h
        · rename_i timeOk heq
          split at h
          · simp at h
          · rename_i htime
            split at h
            · simp at h
            · rename_i hbad
              split at h
              · rename_i hany
                simp only [Except.ok.injEq, Option.some.injEq] at h
                subst h
                have hT : timeOk = true := by
                  by_contra hc
                  simp [Bool.not_eq_true] at hc
                  subst hc
                  simp at htime
                have hbad2 : pySearchBadClass row.rowClass = false ∧
                    pySearchBadText (miRowText row) = false := by
                  constructor
                  · by_contra hc
                    simp [Bool.not_eq_false] at hc
                    simp [hc] at hbad
                  · by_contra hc
                    simp [Bool.not_eq_false] at hc
                    simp [hc] at hbad
                exact ⟨by rw [heq, hT], hbad2.1, hbad2.2, hany⟩
              · simp at h

theorem exceptMap_ok {ε α β : Type} {f : α → β} {x : Except ε α} {b : β}
    (h : Except.map f x = Except.ok b) : ∃ a, x = Except.ok a ∧ b = f a := by
  cases x with
  | error e => simp [Except.map] at h
  | ok a =>
    refine ⟨a, rfl, ?_⟩
    simp [Except.map] at h
    exact h.symm

theorem q18Rows_mem {pd : String} {latest : Nat × Nat} :
    ∀ {rows : List MatrixRow} {out : List TeeTime},
      q18Rows pd latest rows = Except.ok out →
      ∀ t ∈ out, ∃ row, row ∈ rows ∧ q18Row pd latest row = Except.ok (some t) := by
  intro rows
  induction rows with
  | nil =>
    intro out h t ht
    simp only [q18Rows, Except.ok.injEq] at h
    subst h
    simp at ht
  | cons r rs ih =>
    intro out h t ht
    simp only [q18Rows] at h
    cases hr : q18Row pd latest r with
    | error e => rw [hr] at h; simp at h
    | ok o =>
      rw [hr] at h
      cases hrs : q18Rows pd latest rs with
      | error e => rw [hrs] at h; simp at h
      | ok rest =>
        rw [hrs] at h
        simp only [Except.ok.injEq] at h
        subst h
        cases o with
        | some t0 =>
          rcases List.mem_cons.mp ht with rfl | ht2
          · exact ⟨r, List.mem_cons_self _ _, hr⟩
          · obtain ⟨row, hrow, hq⟩ := ih hrs t ht2
            exact ⟨row, List.mem_cons_of_mem _ hrow, hq⟩
        | none =>
          obtain ⟨row, hrow, hq⟩ := ih hrs t ht
          exact ⟨row, List.mem_cons_of_mem _ hrow, hq⟩

theorem miRowsFound_mem {latest : Nat × Nat} :
    ∀ {rows : List MiRow} {found : List String},
      miRowsFound latest rows = Except.ok found →
      ∀ s ∈ found, ∃ row, row ∈ rows ∧ miRowFound latest row = Except.ok (some s) := by
  intro rows
  induction rows with
  | nil =>
    intro found h s hs
    simp only [miRowsFound, Except.ok.injEq] at h
    subst h
    simp at hs
  | cons r rs ih =>
    intro found h s hs
    simp only [miRowsFound] at h
    cases hr : miRowFound latest r with
    | error e => rw [hr] at h; simp at h
    | ok o =>
      rw [hr] at h
      cases hrs : miRowsFound latest rs with
      | error e => rw [hrs] at h; simp at h
      | ok rest =>
        rw [hrs] at h
        simp only [Except.ok.injEq] at h
        subst h
        cases o with
        | some s0 =>
          rcases List.mem_cons.mp hs with rfl | hs2
          · exact ⟨r, List.mem_cons_self _ _, hr⟩
          · obtain ⟨row, hrow, hq⟩ := ih hrs s hs2
            exact ⟨row, List.mem_cons_of_mem _ hrow, hq⟩
        | none =>
          obtain ⟨row, hrow, hq⟩ := ih hrs s hs
          exact ⟨row, List.mem_cons_of_mem _ hrow, hq⟩

theorem miRowsFound_length {latest : Nat × Nat} :
    ∀ {rows : List MiRow} {found : List String},
      miRowsFound latest rows = Except.ok found → found.length ≤ rows.length := by
  intro rows
  induction rows with
  | nil =>
    intro found h
    simp only [miRowsFound, Except.ok.injEq] at h
    subst h
    simp
  | cons r rs ih =>
    intro found h
    simp only [miRowsFound] at h
    cases hr : miRowFound latest r with
    | error e => rw [hr] at h; simp at h
    | ok o =>
      rw [hr] at h
      cases hrs : miRowsFound latest rs with
      | error e => rw [hrs] at h; simp at h
      | ok rest =>
        rw [hrs] at h
        simp only [Except.ok.injEq] at h
        subst h
        have := ih hrs
        cases o with
        | some s0 => simp only [List.length_cons]; omega
        | none => simp only [List.length_cons]; omega

theorem mem_dedupSeen {a : String} :
    ∀ (l seen : List String), a ∈ dedupSeen seen l → a ∈ l := by
  intro l
  induction l with
  | nil => intro seen h; simp [dedupSeen] at h
  | cons x xs ih =>
    intro seen h
    simp only [dedupSeen] at h
    split at h
    · exact List.mem_cons_of_mem _ (ih seen h)
    · rcases List.mem_cons.mp h with rfl | h2
      · exact List.mem_cons_self _ _
      · exact List.mem_cons_of_mem _ (ih _ h2)

theorem dedupSeen_length :
    ∀ (l seen : List String), (dedupSeen seen l).length ≤ l.length := by
  intro l
  induction l with
  | nil => intro seen; simp [dedupSeen]
  | cons x xs ih =>
    intro seen
    simp only [dedupSeen]
    split
    · exact le_trans (ih seen) (by simp)
    · simp only [List.length_cons]
      exact Nat.succ_le_succ (ih _)

/-! ## Aggregator lemmas -/

theorem runSources_append (pd : String) :
    ∀ l1 l2, runSources pd (l1 ++ l2) = runSources pd l1 ++ runSources pd l2 := by
  intro l1
  induction l1 with
  | nil => intro l2; simp [runSources]
  | cons s rest ih =>
    intro l2
    obtain ⟨name, url, outcome⟩ := s
    simp only [List.cons_append, runSources, List.append_eq, ih, List.append_assoc]

/-! ## Claim theorems -/

/-- Claim C3: for every hint whose (lowered) text contains the range
connective `"to"` and at least two numbers, and every
`min_players ≥ 1`, `looks_like_players_ok` accepts the hint exactly
when the second number — the range's upper bound — is at least
`min_players`; in particular `"1 to 4 players"` is accepted at 4 and
rejected at 5. -/
theorem satisfiesPlayerCount_range_upper_bound (s : String) (mp : Int)
    (_hmp : 1 ≤ mp)
    (hto : containsSub "to" (pyLower s) = true)
    (hlen : 2 ≤ (pyFindallNums (pyLower s)).length) :
    (looks_like_players_ok (some s) mp = true ↔
      mp ≤ ((pyFindallNums (pyLower s)).getD 1 0 : Int)) ∧
    looks_like_players_ok (some "1 to 4 players") 4 = true ∧
    looks_like_players_ok (some "1 to 4 players") 5 = false := by
  refine ⟨?_, by decide, by decide⟩
  have hs : ¬ s = "" := by
    intro h
    subst h
    exact absurd hto (by decide)
  have hne : ¬ (pyFindallNums (pyLower s)).isEmpty = true := by
    cases hl : pyFindallNums (pyLower s) with
    | nil => rw [hl] at hlen; simp at hlen
    | cons a t => simp
  simp only [looks_like_players_ok]
  rw [if_neg hs, if_neg hne, if_pos (by simp [hto, hlen])]
  simp

theorem satisfiesPlayerCount_range_upper_bound_witness :
    (1 : Int) ≤ 4 ∧
    containsSub "to" (pyLower "1 to 4 players") = true ∧
    2 ≤ (pyFindallNums (pyLower "1 to 4 players")).length ∧
    ((looks_like_players_ok (some "1 to 4 players") 4 = true ↔
        (4 : Int) ≤ ((pyFindallNums (pyLower "1 to 4 players")).getD 1 0 : Int)) ∧
      looks_like_players_ok (some "1 to 4 players") 4 = true ∧
      looks_like_players_ok (some "1 to 4 players") 5 = false) :=
  ⟨by decide, by decide, by decide,
    satisfiesPlayerCount_range_upper_bound "1 to 4 players" 4 (by decide) (by decide)
      (by decide)⟩

/-- Claim C7: for valid `HH:MM` times, `is_before_or_equal` agrees with
the lexicographic order on `(hour, minute)`: if `t1 ≤ t2` the forward
comparison passes, the reverse comparison fails unless the parsed
values are equal, and equal values pass in both directions. -/
theorem is_before_or_equal_total_order (s1 s2 : String) (p1 p2 : Nat × Nat)
    (h1 : parse_hhmm_24 s1 = some p1) (h2 : parse_hhmm_24 s2 = some p2)
    (hle : p1.1 < p2.1 ∨ (p1.1 = p2.1 ∧ p1.2 ≤ p2.2)) :
    is_before_or_equal s1 p2 = some true ∧
    (p1 ≠ p2 → is_before_or_equal s2 p1 = some false) ∧
    (p1 = p2 → is_before_or_equal s2 p1 = some true) := by
  obtain ⟨a1, b1⟩ := p1
  obtain ⟨a2, b2⟩ := p2
  simp only [is_before_or_equal, h1, h2, Option.map_some']
  simp only at hle
  refine ⟨?_, ?_, ?_⟩
  · have : tupleLe (a1, b1) (a2, b2) = true := by
      simp only [tupleLe]
      simp
      omega
    rw [this]
  · intro hne
    have hne2 : ¬ (a1 = a2 ∧ b1 = b2) := by
      intro ⟨x, y⟩; exact hne (by rw [x, y])
    have : tupleLe (a2, b2) (a1, b1) = false := by
      simp only [tupleLe]
      simp
      omega
    rw [this]
  · intro heq
    have : tupleLe (a2, b2) (a1, b1) = true := by
      injection heq with x y
      simp only [tupleLe]
      simp
      omega
    rw [this]

theorem is_before_or_equal_total_order_witness :
    parse_hhmm_24 "07:05" = some (7, 5) ∧
    parse_hhmm_24 "09:30" = some (9, 30) ∧
    ((7 : Nat) < 9 ∨ ((7 : Nat) = 9 ∧ (5 : Nat) ≤ 30)) ∧
    (is_before_or_equal "07:05" (9, 30) = some true ∧
      ((7, 5) ≠ ((9, 30) : Nat × Nat) → is_before_or_equal "09:30" (7, 5) = some false) ∧
      ((7, 5) = ((9, 30) : Nat × Nat) → is_before_or_equal "09:30" (7, 5) = some true)) :=
  ⟨by decide, by decide, by decide,
    is_before_or_equal_total_order "07:05" "09:30" (7, 5) (9, 30) (by decide) (by decide)
      (by decide)⟩

/-- Claim C4: a source whose strategy raises contributes exactly one
placeholder record — empty time, non-empty diagnostic hint — to the
merged output, and the contributions of the sources before and after
it are exactly what they would have produced anyway. -/
theorem aggregator_source_failure_isolated (pd name url e : String)
    (pre post : List (String × String × Except String (List TeeTime))) :
    runSources pd (pre ++ (name, url, Except.error e) :: post) =
      runSources pd pre ++ [mkPlaceholder name url pd e] ++ runSources pd post ∧
    (mkPlaceholder name url pd e).tee_time = "" ∧
    (∃ d, (mkPlaceholder name url pd e).players_hint = some d ∧ d ≠ "") := by
  refine ⟨?_, rfl, ⟨"ERROR: " ++ e, rfl, ?_⟩⟩
  · rw [runSources_append]
    simp [runSources]
  · intro hc
    have h1 : ("ERROR: " ++ e).length = ("ERROR: " : String).length + e.length :=
      String.length_append _ _
    rw [hc] at h1
    have h3 : ("ERROR: " : String).length = 7 := by decide
    simp at h1
    omega

/-- Claim C5: after the matrix extractor's final stage, the output
holds exactly one record per `(course, play_date, tee_time)` key —
the last-written candidate for that key — and is sorted ascending by
`tee_time`; the extractor is exactly this stage applied to the row
loop's candidates. -/
theorem matrix_dedup_last_write_wins_sorted (results : List TeeTime)
    (k : String × String × String) (pd : String) (latest : Nat × Nat)
    (rows : List MatrixRow) :
    (pySorted byTeeTimeLe (dedupLastWins results)).filter
        (fun r => decide (slotKey r = k)) =
      ((results.filter (fun r => decide (slotKey r = k))).getLast?).toList ∧
    (pySorted byTeeTimeLe (dedupLastWins results)).Pairwise
      (fun a b => byTeeTimeLe a b = true) ∧
    scrape_quick18_rows pd latest rows =
      (q18Rows pd latest rows).map
        (fun res => pySorted byTeeTimeLe (dedupLastWins res)) := by
  refine ⟨?_, ?_, rfl⟩
  · have hperm :=
      (pySorted_perm byTeeTimeLe (dedupLastWins results)).filter
        (fun r => decide (slotKey r = k))
    rw [dedupLastWins_filter] at hperm
    cases hgl : (results.filter (fun r => decide (slotKey r = k))).getLast? with
    | none =>
      rw [hgl] at hperm
      simpa using hperm.eq_nil
    | some r =>
      rw [hgl] at hperm
      exact List.perm_singleton.mp (by simpa using hperm)
  · exact pySorted_sorted byTeeTimeLe byTeeTimeLe_trans byTeeTimeLe_total _

/-- Claim C9: the interactive extractor processes at most the first 400
time-wrapper rows, so it emits at most 400 records, and a row's
outcome depends only on the first 50 of its candidate action
elements. -/
theorem interactive_row_and_action_caps (c u pd : String) (latest : Nat × Nat)
    (rows : List MiRow) (row : MiRow) :
    scrape_miclub_rows c u pd latest rows =
      scrape_miclub_rows c u pd latest (rows.take 400) ∧
    (∀ out, scrape_miclub_rows c u pd latest rows = Except.ok out →
      out.length ≤ 400) ∧
    miRowFound latest { row with actions := row.actions.take 50 } =
      miRowFound latest row := by
  refine ⟨?_, ?_, ?_⟩
  · simp [scrape_miclub_rows, List.take_take]
  · intro out h
    unfold scrape_miclub_rows at h
    obtain ⟨found, hfound, hout⟩ := exceptMap_ok h
    subst hout
    have e1 := (pySorted_perm byTeeTimeLe
      ((pySortedSet found).map
        (fun hhmm =>
          { course := c, play_date := pd, tee_time := hhmm,
            players_hint := none, booking_url := u : TeeTime }))).length_eq
    rw [e1, List.length_map]
    have e2 := (pySorted_perm strLe (dedupSeen [] found)).length_eq
    unfold pySortedSet
    rw [e2]
    have e3 := dedupSeen_length found []
    have e4 := miRowsFound_length hfound
    have e5 : (rows.take 400).length ≤ 400 := by
      simp [List.length_take_le]
    omega
  · unfold miRowFound
    simp [miRowText, List.take_take]

/-- Claim C6: every record either extractor emits has a time that
passed the `is_before_or_equal` check against the caller's latest
bound. -/
theorem emitted_records_respect_latest_bound :
    (∀ (pd : String) (latest : Nat × Nat) (rows : List MatrixRow)
        (out : List TeeTime),
      scrape_quick18_rows pd latest rows = Except.ok out →
      ∀ r ∈ out, is_before_or_equal r.tee_time latest = some true) ∧
    (∀ (c u pd : String) (latest : Nat × Nat) (rows : List MiRow)
        (out : List TeeTime),
      scrape_miclub_rows c u pd latest rows = Except.ok out →
      ∀ r ∈ out, is_before_or_equal r.tee_time latest = some true) := by
  constructor
  · intro pd latest rows out h r hr
    unfold scrape_quick18_rows at h
    obtain ⟨res, hres, hout⟩ := exceptMap_ok h
    subst hout
    have hr3 : r ∈ res := mem_dedupLastWins ((mem_pySorted _ _ _).mp hr)
    obtain ⟨row, _, hq⟩ := q18Rows_mem hres r hr3
    exact (q18Row_ok_some_inv hq).1
  · intro c u pd latest rows out h r hr
    unfold scrape_miclub_rows at h
    obtain ⟨found, hfound, hout⟩ := exceptMap_ok h
    subst hout
    have hr2 := (mem_pySorted _ _ _).mp hr
    obtain ⟨s, hs, rfl⟩ := List.mem_map.mp hr2
    have hs2 : s ∈ dedupSeen [] found := (mem_pySorted _ _ _).mp hs
    have hs3 : s ∈ found := mem_dedupSeen found [] hs2
    obtain ⟨row, _, hq⟩ := miRowsFound_mem hfound s hs3
    exact (miRowFound_ok_some_inv hq).1

theorem interactive_row_and_action_caps_witness :
    scrape_miclub_rows "Collier Park Golf Course" "http://u" "2025-01-01" (10, 0)
        [{ twText? := some "7:00 AM", hhmm? := some "07:00",
           rowText? := some "7:00 AM open", rowClass := "row",
           actions := [{ cls := "", ariaDisabled := "", disabledAttr := none,
                         href := "/b", onclick := "", innerText? := some "Book" }] }] =
      Except.ok [{ course := "Collier Park Golf Course", play_date := "2025-01-01",
                   tee_time := "07:00", players_hint := none,
                   booking_url := "http://u" }] ∧
    ([{ course := "Collier Park Golf Course", play_date := "2025-01-01",
        tee_time := "07:00", players_hint := none,
        booking_url := "http://u" : TeeTime }]).length ≤ 400 :=
  ⟨by decide,
    (interactive_row_and_action_caps "Collier Park Golf Course" "http://u" "2025-01-01"
        (10, 0)
        [{ twText? := some "7:00 AM", hhmm? := some "07:00",
           rowText? := some "7:00 AM open", rowClass := "row",
           actions := [{ cls := "", ariaDisabled := "", disabledAttr := none,
                         href := "/b", onclick := "", innerText? := some "Book" }] }]
        { twText? := none, hhmm? := none, rowText? := none, rowClass := "",
          actions := [] }).2.1
      [{ course := "Collier Park Golf Course", play_date := "2025-01-01",
         tee_time := "07:00", players_hint := none, booking_url := "http://u" }]
      (by decide)⟩

theorem emitted_records_respect_latest_bound_witness :
    (∀ r ∈ [{ course := "Hamersley Public Golf Course", play_date := "2025-01-01",
              tee_time := "07:00",
              players_hint := some "7:00 AM Select 1 to 4 players",
              booking_url := "https://hamersley.quick18.com/teetimes/slot1" : TeeTime }],
      is_before_or_equal r.tee_time (10, 0) = some true) ∧
    (∀ r ∈ [{ course := "Marangaroo Golf Course", play_date := "2025-01-01",
              tee_time := "07:00", players_hint := none,
              booking_url := "http://m" : TeeTime }],
      is_before_or_equal r.tee_time (10, 0) = some true) :=
  ⟨emitted_records_respect_latest_bound.1 "2025-01-01" (10, 0)
      [{ tr_text := "7:00 AM Select 1 to 4 players", hhmm? := some "07:00",
         href? := some "/teetimes/slot1", slotFetch := Except.error "timeout" }]
      [{ course := "Hamersley Public Golf Course", play_date := "2025-01-01",
         tee_time := "07:00",
         players_hint := some "7:00 AM Select 1 to 4 players",
         booking_url := "https://hamersley.quick18.com/teetimes/slot1" }]
      (by decide),
    emitted_records_respect_latest_bound.2 "Marangaroo Golf Course" "http://m"
      "2025-01-01" (10, 0)
      [{ twText? := some "7:00 AM", hhmm? := some "07:00",
         rowText? := some "7:00 AM open", rowClass := "row",
         actions := [{ cls := "", ariaDisabled := "", disabledAttr := none,
                       href := "/b", onclick := "", innerText? := some "Book" }] }]
      [{ course := "Marangaroo Golf Course", play_date := "2025-01-01",
         tee_time := "07:00", players_hint := none, booking_url := "http://m" }]
      (by decide)⟩

/-- Claim C8: a row whose secondary slot-page fetch raises is not
aborted: the `except` handler maps the failure to
`slot_supports_min = True` with the row-level hint retained, and the
row's record is emitted (the only filter after the fetch is the
`slot_supports_min` test, which the fallback passes). -/
theorem matrix_transient_fetch_optimistic (pd : String) (latest : Nat × Nat)
    (row : MatrixRow) (hhmm href e : String)
    (hsel : containsSub "select" (pyLower row.tr_text) = true)
    (hh : row.hhmm? = some hhmm) (hne : hhmm ≠ "")
    (ht : is_before_or_equal hhmm latest = some true)
    (hr : row.href? = some href) (hrne : href ≠ "")
    (hf : row.slotFetch = Except.error e) :
    (∀ ih, q18SlotStep ih (Except.error e) = (true, ih)) ∧
    q18Row pd latest row = Except.ok (some
      { course := hamersleyCourse
        play_date := pd
        tee_time := hhmm
        players_hint := q18FinalHint (if row.tr_text = "" then none else some row.tr_text)
        booking_url := if pyStartsWith "http" href then href else base_url ++ href }) := by
  refine ⟨fun ih => rfl, ?_⟩
  unfold q18Row
  rw [hh, hr, hf]
  simp [hsel, hne, ht, hrne, q18SlotStep]

theorem matrix_transient_fetch_optimistic_witness :
    containsSub "select"
        (pyLower "7:00 AM Select 1 to 4 players") = true ∧
    ("07:00" : String) ≠ "" ∧
    is_before_or_equal "07:00" (10, 0) = some true ∧
    ("/teetimes/slot1" : String) ≠ "" ∧
    ((∀ ih, q18SlotStep ih (Except.error "timeout") = (true, ih)) ∧
      q18Row "2025-01-01" (10, 0)
          { tr_text := "7:00 AM Select 1 to 4 players", hhmm? := some "07:00",
            href? := some "/teetimes/slot1", slotFetch := Except.error "timeout" } =
        Except.ok (some
          { course := hamersleyCourse
            play_date := "2025-01-01"
            tee_time := "07:00"
            players_hint :=
              q18FinalHint
                (if ("7:00 AM Select 1 to 4 players" : String) = "" then none
                 else some "7:00 AM Select 1 to 4 players")
            booking_url :=
              if pyStartsWith "http" "/teetimes/slot1" then "/teetimes/slot1"
              else base_url ++ "/teetimes/slot1" })) :=
  ⟨by decide, by decide, by decide, by decide,
    matrix_transient_fetch_optimistic "2025-01-01" (10, 0)
      { tr_text := "7:00 AM Select 1 to 4 players", hhmm? := some "07:00",
        href? := some "/teetimes/slot1", slotFetch := Except.error "timeout" }
      "07:00" "/teetimes/slot1" "timeout" (by decide) rfl (by decide) (by decide) rfl
      (by decide) rfl⟩

/-- Claim C10: every record the matrix extractor emits carries either
no player hint or one that mentions "player" (case-insensitively) and
does not contain "up to 20" — the cleanup of lines 278–283 replaces
any other hint by `None`. -/
theorem matrix_hint_sanitized (pd : String) (latest : Nat × Nat)
    (rows : List MatrixRow) (out : List TeeTime)
    (h : scrape_quick18_rows pd latest rows = Except.ok out) :
    ∀ r ∈ out, r.players_hint = none ∨
      ∃ hs, r.players_hint = some hs ∧
        containsSub "player" (pyLower hs) = true ∧
        containsSub "up to 20" (pyLower hs) = false := by
  intro r hr
  unfold scrape_quick18_rows at h
  obtain ⟨res, hres, hout⟩ := exceptMap_ok h
  subst hout
  have hr3 : r ∈ res := mem_dedupLastWins ((mem_pySorted _ _ _).mp hr)
  obtain ⟨row, _, hq⟩ := q18Rows_mem hres r hr3
  obtain ⟨o, ho⟩ := (q18Row_ok_some_inv hq).2.1
  rw [ho]
  cases o with
  | none => left; rfl
  | some hsv =>
    simp only [q18FinalHint]
    split
    · rename_i hcond
      rw [Bool.and_eq_true, Bool.and_eq_true] at hcond
      obtain ⟨⟨_, hplayer⟩, hupto⟩ := hcond
      right
      refine ⟨hsv, rfl, hplayer, ?_⟩
      simpa using hupto
    · left; rfl

theorem matrix_hint_sanitized_witness :
    ({ course := "Hamersley Public Golf Course", play_date := "2025-01-01",
       tee_time := "07:00",
       players_hint := some "7:00 AM Select 1 to 4 players",
       booking_url := "https://hamersley.quick18.com/teetimes/slot1" :
         TeeTime }).players_hint = none ∨
      ∃ hs,
        ({ course := "Hamersley Public Golf Course", play_date := "2025-01-01",
           tee_time := "07:00",
           players_hint := some "7:00 AM Select 1 to 4 players",
           booking_url := "https://hamersley.quick18.com/teetimes/slot1" :
             TeeTime }).players_hint = some hs ∧
          containsSub "player" (pyLower hs) = true ∧
          containsSub "up to 20" (pyLower hs) = false :=
  matrix_hint_sanitized "2025-01-01" (10, 0)
    [{ tr_text := "7:00 AM Select 1 to 4 players", hhmm? := some "07:00",
       href? := some "/teetimes/slot1", slotFetch := Except.error "timeout" }]
    [{ course := "Hamersley Public Golf Course", play_date := "2025-01-01",
       tee_time := "07:00",
       players_hint := some "7:00 AM Select 1 to 4 players",
       booking_url := "https://hamersley.quick18.com/teetimes/slot1" }]
    (by decide)
    { course := "Hamersley Public Golf Course", play_date := "2025-01-01",
      tee_time := "07:00",
      players_hint := some "7:00 AM Select 1 to 4 players",
      booking_url := "https://hamersley.quick18.com/teetimes/slot1" }
    (by decide)

/-- Claim C2, counterexample: an interactive-extractor row whose text
contains both "Available" and "Taken", with an enabled bookable
action, is *included* in the output — `bad_text_re` has no
alternative for "taken" and no positive "available" check exists. -/
theorem interactive_available_taken_included :
    containsSub "Available" "7:00 AM Available Taken 4 spots" = true ∧
    containsSub "Taken" "7:00 AM Available Taken 4 spots" = true ∧
    scrape_miclub_rows "Collier Park Golf Course" "http://u" "2025-01-01" (10, 0)
        [{ twText? := some "7:00 AM", hhmm? := some "07:00",
           rowText? := some "7:00 AM Available Taken 4 spots",
           rowClass := "row time-row",
           actions := [{ cls := "btn", ariaDisabled := "", disabledAttr := none,
                         href := "/book?x=1", onclick := "",
                         innerText? := some "Book" }] }] =
      Except.ok [{ course := "Collier Park Golf Course",
                   play_date := "2025-01-01", tee_time := "07:00",
                   players_hint := none, booking_url := "http://u" }] :=
  ⟨by decide, by decide, by decide⟩

/-- Claim C2, amended: a row is excluded when its class or text matches
the negative-signal patterns (disabled/unavailable/booked/closed/
soldout/full/na as class substrings; booked/closed/unavailable/
sold out/full/n-a as word-bounded text), or when none of its first 50
action elements is an enabled bookable action; the word "taken" is
not a negative signal and no positive "available" text is
required. -/
theorem interactive_negative_signals_exclude (latest : Nat × Nat) (row : MiRow)
    (s : String) :
    ((pySearchBadClass row.rowClass = true ∨
        pySearchBadText (miRowText row) = true) →
      miRowFound latest row ≠ Except.ok (some s)) ∧
    ((row.actions.take 50).any actionBookable = false →
      miRowFound latest row ≠ Except.ok (some s)) ∧
    pySearchBadText "available taken" = false ∧
    pySearchBadText "booked" = true := by
  refine ⟨?_, ?_, by decide, by decide⟩
  · intro hbad hc
    obtain ⟨_, hclass, htext, _⟩ := miRowFound_ok_some_inv hc
    rcases hbad with hb | hb
    · rw [hclass] at hb
      exact Bool.false_ne_true hb
    · rw [htext] at hb
      exact Bool.false_ne_true hb
  · intro hany hc
    have hb := (miRowFound_ok_some_inv hc).2.2.2
    rw [hany] at hb
    exact Bool.false_ne_true hb

theorem interactive_negative_signals_exclude_witness :
    (miRowFound (10, 0)
        { twText? := some "7:00 AM", hhmm? := some "07:00",
          rowText? := some "7:00 AM Booked", rowClass := "row",
          actions := [{ cls := "btn", ariaDisabled := "", disabledAttr := none,
                        href := "/b", onclick := "",
                        innerText? := some "Book" }] } ≠
      Except.ok (some "07:00")) ∧
    (miRowFound (10, 0)
        { twText? := some "7:00 AM", hhmm? := some "07:00",
          rowText? := some "7:00 AM open", rowClass := "row",
          actions := [] } ≠
      Except.ok (some "07:00")) :=
  ⟨(interactive_negative_signals_exclude (10, 0)
      { twText? := some "7:00 AM", hhmm? := some "07:00",
        rowText? := some "7:00 AM Booked", rowClass := "row",
        actions := [{ cls := "btn", ariaDisabled := "", disabledAttr := none,
                      href := "/b", onclick := "",
                      innerText? := some "Book" }] } "07:00").1
      (Or.inr (by decide)),
    (interactive_negative_signals_exclude (10, 0)
      { twText? := some "7:00 AM", hhmm? := some "07:00",
        rowText? := some "7:00 AM open", rowClass := "row",
        actions := [] } "07:00").2.1 (by decide)⟩

/-! ## Renderer lemmas -/

theorem strExt {a b : String} (h : a.data = b.data) : a = b := by
  cases a
  cases b
  simp only at h
  rw [h]

theorem strAppend_cancel_left (a : String) {b c : String}
    (h : a ++ b = a ++ c) : b = c := by
  have hd := congrArg String.data h
  simp only [String.data_append] at hd
  exact strExt (List.append_cancel_left hd)

theorem joinLines_append :
    ∀ (l1 l2 : List String), l1 ≠ [] → l2 ≠ [] →
      joinLines (l1 ++ l2) = joinLines l1 ++ "\n" ++ joinLines l2 := by
  intro l1
  induction l1 with
  | nil => intro l2 h _; exact absurd rfl h
  | cons x t ih =>
    intro l2 _ h2
    cases t with
    | nil =>
      cases l2 with
      | nil => exact absurd rfl h2
      | cons y ys => simp [joinLines]
    | cons z zs =>
      have hrec := ih l2 (by simp) h2
      have h3 : (x :: z :: zs) ++ l2 = x :: ((z :: zs) ++ l2) := by simp
      rw [h3]
      have h4 : (z :: zs) ++ l2 = z :: (zs ++ l2) := by simp
      have h5 : joinLines (x :: ((z :: zs) ++ l2)) =
          x ++ "\n" ++ joinLines ((z :: zs) ++ l2) := by
        rw [h4]; simp [joinLines]
      have h6 : joinLines (x :: z :: zs) = x ++ "\n" ++ joinLines (z :: zs) := by
        simp [joinLines]
      rw [h5, hrec, h6]
      apply strExt
      simp [String.data_append, List.append_assoc]

theorem filter_partition_length (l : List TeeTime) :
    ((l.filter (fun r => decide (r.tee_time ≠ ""))).length +
      (l.filter (fun r => decide (r.tee_time = ""))).length) = l.length := by
  induction l with
  | nil => rfl
  | cons x xs ih =>
    by_cases hx : x.tee_time = ""
    · simp only [List.filter_cons, hx]
      simp only [decide_not]
      simp [hx] at ih ⊢
      omega
    · simp only [List.filter_cons]
      simp [hx] at ih ⊢
      omega

theorem groupAppend_ne_nil (acc : List (String × List TeeTime)) (r : TeeTime) :
    groupAppend acc r ≠ [] := by
  cases acc with
  | nil => simp [groupAppend]
  | cons g rest =>
    obtain ⟨c, items⟩ := g
    simp only [groupAppend]
    split <;> simp

theorem foldl_groupAppend_ne_nil :
    ∀ (l : List TeeTime) (acc : List (String × List TeeTime)),
      acc ≠ [] → l.foldl groupAppend acc ≠ [] := by
  intro l
  induction l with
  | nil => intro acc h; simpa using h
  | cons x xs ih =>
    intro acc _
    simp only [List.foldl_cons]
    exact ih _ (groupAppend_ne_nil acc x)

theorem groupByCourse_cons_ne_nil (r : TeeTime) (rs : List TeeTime) :
    groupByCourse (r :: rs) ≠ [] := by
  unfold groupByCourse
  simp only [List.foldl_cons]
  exact foldl_groupAppend_ne_nil rs _ (groupAppend_ne_nil [] r)

theorem nothingMatchedNotice_eq (pd : String) (mp : Int) (lt : String) :
    nothingMatchedNotice pd mp lt =
      joinLines (renderHeaderLines pd mp lt) ++ "\n" ++
        "Nothing matched. Could be full, or one of the booking pages changed.\n" := by
  apply strExt
  unfold nothingMatchedNotice renderHeaderLines
  simp only [joinLines, String.data_append]
  simp [List.append_assoc]

theorem renderSections_ne_notice (x : TeeTime) (xs : List TeeTime)
    (pd : String) (mp : Int) (lt : String) :
    renderSections (x :: xs) pd mp lt ≠ nothingMatchedNotice pd mp lt := by
  intro hEq
  unfold renderSections at hEq
  cases hg : groupByCourse (x :: xs) with
  | nil => exact groupByCourse_cons_ne_nil x xs hg
  | cons g gs =>
    rw [hg] at hEq
    rw [List.map_cons, List.flatten_cons] at hEq
    rw [joinLines_append (renderHeaderLines pd mp lt) _
        (by simp [renderHeaderLines]) (by simp [courseSection])] at hEq
    rw [nothingMatchedNotice_eq] at hEq
    have hEq2 :=
      strAppend_cancel_left (joinLines (renderHeaderLines pd mp lt) ++ "\n") hEq
    have hEq3 :
        ("## " ++ g.1) ++ "\n" ++
            joinLines ("" :: (g.2.map slotLine ++ [""]) ++ (gs.map courseSection).flatten) =
          "Nothing matched. Could be full, or one of the booking pages changed.\n" := by
      rw [← hEq2]
      simp only [courseSection, List.cons_append]
      rfl
    have hH := congrArg (fun s => s.data.head?) hEq3
    simp only [String.data_append] at hH
    simp at hH

/-- Claim C1, counterexample: a merged list that holds a placeholder and
no real slot (so stripping placeholders leaves it empty) renders
per-source sections, not the fixed "nothing matched" notice. -/
theorem placeholder_only_report_not_notice :
    ([mkPlaceholder "Collier Park Golf Course"
        "https://bookings.collierparkgolf.com.au/x" "2025-01-01"
        "net timeout"].filter (fun r => decide (r.tee_time ≠ "")) = []) ∧
    mainReport
        [mkPlaceholder "Collier Park Golf Course"
          "https://bookings.collierparkgolf.com.au/x" "2025-01-01" "net timeout"]
        "2025-01-01" 2 "10:00" ≠
      nothingMatchedNotice "2025-01-01" 2 "10:00" :=
  ⟨by decide, by decide⟩

/-- Claim C1, amended: the renderer emits the fixed "nothing matched"
notice exactly when the merged list passed through `main` is entirely
empty — placeholder records count as content, so a merged list
holding only placeholders is rendered as per-source sections. -/
theorem report_notice_iff_empty (all : List TeeTime) (pd : String) (mp : Int)
    (lt : String) :
    mainReport all pd mp lt = nothingMatchedNotice pd mp lt ↔ all = [] := by
  constructor
  · intro h
    by_contra hne
    cases hall : all with
    | nil => exact hne hall
    | cons y ys =>
      subst hall
      unfold mainReport at h
      dsimp only at h
      have hlen :
          (pySorted byCourseTimeLe
              ((y :: ys).filter (fun r => decide (r.tee_time ≠ ""))) ++
            (y :: ys).filter (fun r => decide (r.tee_time = ""))).length =
          (y :: ys).length := by
        rw [List.length_append,
          (pySorted_perm byCourseTimeLe _).length_eq,
          filter_partition_length]
      cases hcL : pySorted byCourseTimeLe
          ((y :: ys).filter (fun r => decide (r.tee_time ≠ ""))) ++
          (y :: ys).filter (fun r => decide (r.tee_time = "")) with
      | nil =>
        rw [hcL] at hlen
        simp at hlen
      | cons z zs =>
        rw [hcL] at h
        unfold render_markdown at h
        rw [if_neg (by simp)] at h
        exact renderSections_ne_notice z zs pd mp lt h
  · intro h
    subst h
    rfl
